import Mathlib

/-!
Verification development for the inventory management module
(`inventory_system.py`).  The Python module keeps an in-memory dict
mapping item names to `{"quantity": int, "price": float}` records and
offers `add_item`, `remove_item`, `get_qty`, `load_data`, `save_data`
and `check_low_items`.

Embedding choices:
* A Python dict is embedded as an insertion-ordered association list
  `List (String × InventoryRecord)`; a dict never holds two entries for
  the same key, so the list operations update or delete every entry of
  the given key (on unique-key lists this coincides with the dict's
  single slot).
* Python `int` becomes `Int`; `float` prices are idealised as `Rat`
  (prices are only stored and compared, never computed with).
* Each `logging.info/warning/error` call becomes an explicit
  `LogEvent` value returned alongside the new mapping.
* The durable JSON file is a `FileState`; the text layer of
  `json.dump`/`json.load` is abstracted to structured `Json` values
  (the Python codec round-trips the values in question exactly).
-/

namespace Inventory

/-- The value stored for one item: the Python dict
`{"quantity": quantity, "price": price}`. -/
structure InventoryRecord where
  quantity : Int
  price : Rat
deriving DecidableEq, Repr

/-- The in-memory inventory: a Python dict from item name to record,
embedded as an insertion-ordered association list. -/
abbrev InvMap := List (String × InventoryRecord)

/-- Severity of a log line, mirroring `logging.INFO/WARNING/ERROR`. -/
inductive LogLevel where
  | info
  | warning
  | error
deriving DecidableEq, Repr

/-- One emitted log line; each constructor is one `logging.…` call site
of the source, carrying the interpolated arguments. -/
inductive LogEvent where
  | infoIncreased (item_name : String) (quantity : Int)
  | infoAddedNew (item_name : String) (quantity : Int)
  | warnNotFound (item_name : String)
  | warnInsufficient (quantity : Int) (item_name : String) (stock : Int)
  | infoRemoved (quantity : Int) (item_name : String)
  | infoOutOfStock (item_name : String)
  | warnNoDataFile
  | errLoadFailed
  | infoSaved
  | warnLowStock (item_name : String) (quantity : Int)
deriving DecidableEq, Repr

/-- The severity each log call site uses in the source. -/
def LogEvent.level : LogEvent → LogLevel
  | .infoIncreased _ _ => .info
  | .infoAddedNew _ _ => .info
  | .warnNotFound _ => .warning
  | .warnInsufficient _ _ _ => .warning
  | .infoRemoved _ _ => .info
  | .infoOutOfStock _ => .info
  | .warnNoDataFile => .warning
  | .errLoadFailed => .error
  | .infoSaved => .info
  | .warnLowStock _ _ => .warning

/-- `LOW_STOCK_THRESHOLD = 5` (module-level constant). -/
def LOW_STOCK_THRESHOLD : Int := 5

/-- Dict read `inventory_data[item_name]` / the membership test
`item_name in inventory_data`: first entry of the key, if any. -/
def lookup (item_name : String) : InvMap → Option InventoryRecord
  | [] => none
  | e :: rest => if e.1 = item_name then some e.2 else lookup item_name rest

/-- The keys of the mapping, in insertion order. -/
def keys (inventory_data : InvMap) : List String :=
  inventory_data.map Prod.fst

/-- The dict slot update `inventory_data[item_name]["quantity"] += delta`:
adds `delta` to the quantity of every entry of the key (a dict has at
most one). -/
def updateQty (item_name : String) (delta : Int) : InvMap → InvMap
  | [] => []
  | e :: rest =>
      (if e.1 = item_name then
        (e.1, { e.2 with quantity := e.2.quantity + delta })
      else e) :: updateQty item_name delta rest

/-- The dict deletion `del inventory_data[item_name]`: drops every entry
of the key (a dict has at most one). -/
def eraseKey (item_name : String) : InvMap → InvMap
  | [] => []
  | e :: rest =>
      if e.1 = item_name then eraseKey item_name rest
      else e :: eraseKey item_name rest

/-- `add_item(item_name, quantity, price, inventory_data)`: if the key
exists, increment its quantity (the `price` argument is not consulted);
otherwise append a fresh record `{"quantity": quantity, "price": price}`.
Returns the new mapping and the emitted log events. -/
def add_item (item_name : String) (quantity : Int) (price : Rat)
    (inventory_data : InvMap) : InvMap × List LogEvent :=
  match lookup item_name inventory_data with
  | some _ =>
      (updateQty item_name quantity inventory_data,
       [LogEvent.infoIncreased item_name quantity])
  | none =>
      (inventory_data ++ [(item_name, { quantity := quantity, price := price })],
       [LogEvent.infoAddedNew item_name quantity])

/-- `remove_item(item_name, quantity, inventory_data)`: warn and return
unchanged when the key is absent or stocks are short; otherwise decrement
the slot, and when the slot (whose value after the decrement is
`r.quantity - quantity`) reads zero, delete the record and log a second
informational event.  Returns the new mapping and the emitted events. -/
def remove_item (item_name : String) (quantity : Int)
    (inventory_data : InvMap) : InvMap × List LogEvent :=
  match lookup item_name inventory_data with
  | none => (inventory_data, [LogEvent.warnNotFound item_name])
  | some r =>
      if r.quantity < quantity then
        (inventory_data, [LogEvent.warnInsufficient quantity item_name r.quantity])
      else
        let updated := updateQty item_name (-quantity) inventory_data
        if r.quantity - quantity = 0 then
          (eraseKey item_name updated,
           [LogEvent.infoRemoved quantity item_name,
            LogEvent.infoOutOfStock item_name])
        else
          (updated, [LogEvent.infoRemoved quantity item_name])

/-- `get_qty(item_name, inventory_data)`:
`inventory_data.get(item_name, \x7b\x7d).get("quantity", 0)`. -/
def get_qty (item_name : String) (inventory_data : InvMap) : Int :=
  match lookup item_name inventory_data with
  | some r => r.quantity
  | none => 0

/-- `check_low_items(inventory_data)`: the dict comprehension keeping the
items with `quantity < LOW_STOCK_THRESHOLD`, together with the warning
logged for each kept item (the printed lines are not modelled). -/
def check_low_items (inventory_data : InvMap) : InvMap × List LogEvent :=
  let low_items :=
    inventory_data.filter (fun e => decide (e.2.quantity < LOW_STOCK_THRESHOLD))
  (low_items, low_items.map (fun e => LogEvent.warnLowStock e.1 e.2.quantity))

/-- Structured JSON values, standing for the parsed form of the file
text; Python's codec keeps `int` and `float` apart, hence the two
numeric constructors. -/
inductive Json where
  | jnull
  | jbool (b : Bool)
  | jint (i : Int)
  | jnum (q : Rat)
  | jstr (s : String)
  | jarr (elems : List Json)
  | jobj (fields : List (String × Json))

/-- What `json.dump` writes for an inventory mapping: an object keyed by
item name whose values are objects with the `quantity` and `price`
fields, in that insertion order. -/
def toJson (inventory_data : InvMap) : Json :=
  Json.jobj (inventory_data.map (fun e =>
    (e.1, Json.jobj [("quantity", Json.jint e.2.quantity),
                     ("price", Json.jnum e.2.price)])))

/-- Reads one field of the on-disk object back as an inventory entry. -/
def decodeField : String × Json → Option (String × InventoryRecord)
  | (n, Json.jobj [("quantity", Json.jint q), ("price", Json.jnum p)]) =>
      some (n, { quantity := q, price := p })
  | _ => none

/-- Reads the fields of the on-disk object back in order, failing if any
field is not an inventory entry. -/
def decodeFields : List (String × Json) → Option InvMap
  | [] => some []
  | f :: rest =>
      match decodeField f, decodeFields rest with
      | some e, some M => some (e :: M)
      | _, _ => none

/-- Interprets a parsed JSON value as an inventory mapping, when it has
exactly the shape `save_data` writes. -/
def fromJson : Json → Option InvMap
  | Json.jobj fields => decodeFields fields
  | _ => none

/-- State of `DATA_FILE` as `load_data` can encounter it: absent, present
but unopenable (e.g. no read permission: `open` raises `PermissionError`),
or present and openable with a parse outcome (`none` = corrupt text,
`some j` = text parsing to `j`). -/
inductive FileState where
  | missing
  | unopenable
  | file (parsed : Option Json)

/-- A Python exception escaping an operation. -/
inductive PyError where
  | permissionError
deriving DecidableEq, Repr

/-- `load_data()`: when `os.path.exists` is false, warn and return `{}`;
otherwise open and `json.load`, catching only `json.JSONDecodeError` and
`FileNotFoundError` (an `OSError` such as `PermissionError` raised by
`open` is NOT caught and escapes).  Returns the parsed value verbatim
together with the emitted events, or the escaping exception. -/
def load_data (fs : FileState) : Except PyError (Json × List LogEvent) :=
  match fs with
  | .missing => Except.ok (Json.jobj [], [LogEvent.warnNoDataFile])
  | .unopenable => Except.error PyError.permissionError
  | .file none => Except.ok (Json.jobj [], [LogEvent.errLoadFailed])
  | .file (some j) => Except.ok (j, [])

/-- `save_data(inventory_data)` on the successful write path: overwrite
the file with the serialised mapping and log success.  (An `OSError`
during the write is caught and logged in the source; that environmental
failure is outside this model.) -/
def save_data (inventory_data : InvMap) (_fs : FileState) :
    FileState × List LogEvent :=
  (FileState.file (some (toJson inventory_data)), [LogEvent.infoSaved])

/-- One call the interactive loop can make into the mutating core. -/
inductive Op where
  | add (item_name : String) (quantity : Int) (price : Rat)
  | remove (item_name : String) (quantity : Int)

/-- The argument constraints §4.1 of the design places on callers:
additions carry a positive quantity and a non-negative price; removals
are unconstrained here. -/
def Op.valid : Op → Prop
  | .add _ q p => 0 < q ∧ 0 ≤ p
  | .remove _ _ => True

/-- Applies one call to the mapping, discarding the log stream. -/
def applyOp (inventory_data : InvMap) : Op → InvMap
  | .add n q p => (add_item n q p inventory_data).1
  | .remove n q => (remove_item n q inventory_data).1

/-- The mapping reached from the empty inventory by a sequence of
`add_item` / `remove_item` calls. -/
def runOps (ops : List Op) : InvMap :=
  ops.foldl applyOp []

/-- Well-formedness every mapping built by the Python module has: keys
are unique (it is a dict) and quantities and prices are non-negative. -/
def Wf (inventory_data : InvMap) : Prop :=
  (keys inventory_data).Nodup ∧
  ∀ e ∈ inventory_data, 0 ≤ e.2.quantity ∧ 0 ≤ e.2.price

instance (M : InvMap) : Decidable (Wf M) := by
  unfold Wf; infer_instance

/-! ### Lemmas on the dict embedding -/

theorem keys_cons (e : String × InventoryRecord) (M : InvMap) :
    keys (e :: M) = e.1 :: keys M := rfl

theorem lookup_append_of_none {n : String} {A B : InvMap}
    (h : lookup n A = none) : lookup n (A ++ B) = lookup n B := by
  induction A with
  | nil => rfl
  | cons e rest ih =>
    by_cases he : e.1 = n
    · simp [lookup, he] at h
    · simp only [lookup, he, if_false] at h
      rw [List.cons_append]
      simp only [lookup, he, if_false]
      exact ih h

theorem lookup_updateQty_self (n : String) (d : Int) (M : InvMap) :
    lookup n (updateQty n d M) =
      (lookup n M).map (fun r => { r with quantity := r.quantity + d }) := by
  induction M with
  | nil => rfl
  | cons e rest ih =>
    by_cases he : e.1 = n
    · simp [lookup, updateQty, he]
    · simp [lookup, updateQty, he, ih]

theorem lookup_updateQty_ne {m n : String} (d : Int) (M : InvMap)
    (h : m ≠ n) : lookup m (updateQty n d M) = lookup m M := by
  have hnm : ¬ n = m := fun hc => h hc.symm
  induction M with
  | nil => rfl
  | cons e rest ih =>
    by_cases he : e.1 = n
    · have hm : ¬ e.1 = m := by rw [he]; exact hnm
      simp [lookup, updateQty, he, hm, hnm, ih]
    · by_cases hm : e.1 = m
      · simp [lookup, updateQty, he, hm, fun hc => h hc]
      · simp [lookup, updateQty, he, hm, ih]

theorem lookup_eraseKey_self (n : String) (M : InvMap) :
    lookup n (eraseKey n M) = none := by
  induction M with
  | nil => rfl
  | cons e rest ih =>
    by_cases he : e.1 = n
    · simp [eraseKey, he, ih]
    · simp [eraseKey, lookup, he, ih]

theorem lookup_eraseKey_ne {m n : String} (M : InvMap) (h : m ≠ n) :
    lookup m (eraseKey n M) = lookup m M := by
  have hnm : ¬ n = m := fun hc => h hc.symm
  induction M with
  | nil => rfl
  | cons e rest ih =>
    by_cases he : e.1 = n
    · have hm : ¬ e.1 = m := by rw [he]; exact hnm
      simp [eraseKey, lookup, he, hm, hnm, ih]
    · by_cases hm : e.1 = m
      · simp [eraseKey, lookup, he, hm, h]
      · simp [eraseKey, lookup, he, hm, ih]

theorem eraseKey_sublist (n : String) (M : InvMap) :
    (eraseKey n M).Sublist M := by
  induction M with
  | nil => simp [eraseKey]
  | cons e rest ih =>
    by_cases he : e.1 = n
    · simpa [eraseKey, he] using ih.cons e
    · simpa [eraseKey, he] using ih.cons₂ e

theorem mem_eraseKey_key_ne {n : String} {e : String × InventoryRecord}
    {M : InvMap} (h : e ∈ eraseKey n M) : e.1 ≠ n := by
  induction M with
  | nil => simp [eraseKey] at h
  | cons a rest ih =>
    by_cases ha : a.1 = n
    · exact ih (by simpa [eraseKey, ha] using h)
    · rcases (by simpa [eraseKey, ha] using h :
        e = a ∨ e ∈ eraseKey n rest) with rfl | hmem
      · exact ha
      · exact ih hmem

theorem mem_updateQty {n : String} (d : Int) {e : String × InventoryRecord}
    {M : InvMap} (h : e ∈ updateQty n d M) :
    (e ∈ M ∧ e.1 ≠ n) ∨
      ∃ r, (n, r) ∈ M ∧ e = (n, { r with quantity := r.quantity + d }) := by
  induction M with
  | nil => simp [updateQty] at h
  | cons a rest ih =>
    by_cases ha : a.1 = n
    · rcases (by simpa [updateQty, ha] using h :
        e = (a.1, { a.2 with quantity := a.2.quantity + d }) ∨
          e ∈ updateQty n d rest) with rfl | hmem
      · exact Or.inr ⟨a.2, by simp [← ha], by simp [ha]⟩
      · rcases ih hmem with ⟨hm, hne⟩ | ⟨r, hr, he⟩
        · exact Or.inl ⟨List.mem_cons_of_mem a hm, hne⟩
        · exact Or.inr ⟨r, List.mem_cons_of_mem a hr, he⟩
    · rcases (by simpa [updateQty, ha] using h :
        e = a ∨ e ∈ updateQty n d rest) with rfl | hmem
      · exact Or.inl ⟨List.mem_cons_self e rest, ha⟩
      · rcases ih hmem with ⟨hm, hne⟩ | ⟨r, hr, he⟩
        · exact Or.inl ⟨List.mem_cons_of_mem a hm, hne⟩
        · exact Or.inr ⟨r, List.mem_cons_of_mem a hr, he⟩

theorem keys_updateQty (n : String) (d : Int) (M : InvMap) :
    keys (updateQty n d M) = keys M := by
  induction M with
  | nil => rfl
  | cons e rest ih =>
    by_cases he : e.1 = n
    · simp [keys, updateQty, he] at ih ⊢; exact ih
    · simp [keys, updateQty, he] at ih ⊢; exact ih

theorem lookup_eq_none_iff {n : String} {M : InvMap} :
    lookup n M = none ↔ n ∉ keys M := by
  induction M with
  | nil => simp [lookup, keys]
  | cons e rest ih =>
    rw [keys_cons]
    by_cases he : e.1 = n
    · simp [lookup, he]
    · simp only [lookup, he, if_false, List.mem_cons]
      rw [ih]
      constructor
      · intro hnot hc
        rcases hc with hc | hc
        · exact he hc.symm
        · exact hnot hc
      · intro hnot hc
        exact hnot (Or.inr hc)

theorem lookup_mem {n : String} {r : InventoryRecord} {M : InvMap}
    (h : lookup n M = some r) : (n, r) ∈ M := by
  induction M with
  | nil => simp [lookup] at h
  | cons e rest ih =>
    by_cases he : e.1 = n
    · simp only [lookup, he, if_true, Option.some.injEq] at h
      subst h
      have : (n, e.2) = e := by
        rw [← he]
      rw [this]; exact List.mem_cons_self e rest
    · simp only [lookup, he, if_false] at h
      exact List.mem_cons_of_mem e (ih h)

theorem lookup_append_single_ne {m n : String} (r : InventoryRecord)
    (M : InvMap) (h : m ≠ n) : lookup m (M ++ [(n, r)]) = lookup m M := by
  induction M with
  | nil => simp [lookup, show ¬ n = m from fun hc => h hc.symm]
  | cons e rest ih =>
    by_cases he : e.1 = m
    · simp [lookup, he]
    · simp [lookup, he, ih]

theorem lookup_of_mem_nodup {n : String} {r : InventoryRecord} {M : InvMap}
    (hnd : (keys M).Nodup) (h : (n, r) ∈ M) : lookup n M = some r := by
  induction M with
  | nil => simp at h
  | cons e rest ih =>
    rw [keys_cons] at hnd
    have hnd' := List.nodup_cons.mp hnd
    rcases List.mem_cons.mp h with rfl | hmem
    · simp [lookup]
    · have hin : n ∈ keys rest := List.mem_map_of_mem Prod.fst hmem
      have hne : ¬ e.1 = n := fun hc => hnd'.1 (by rw [hc]; exact hin)
      simp [lookup, hne, ih hnd'.2 hmem]

/-! ### Preservation of well-formedness -/

theorem wf_eraseKey {n : String} {M : InvMap} (hwf : Wf M) :
    Wf (eraseKey n M) := by
  refine ⟨?_, ?_⟩
  · exact List.Nodup.sublist ((eraseKey_sublist n M).map Prod.fst) hwf.1
  · intro e he
    exact hwf.2 e ((eraseKey_sublist n M).subset he)

theorem wf_add {n : String} {q : Int} {p : Rat} {M : InvMap}
    (hwf : Wf M) (hq : 0 < q) (hp : 0 ≤ p) : Wf (add_item n q p M).1 := by
  obtain ⟨hnd, hnn⟩ := hwf
  cases hl : lookup n M with
  | some r =>
    simp only [add_item, hl]
    refine ⟨by rw [keys_updateQty]; exact hnd, ?_⟩
    intro e he
    rcases mem_updateQty q he with ⟨hm, _⟩ | ⟨r2, hr2, rfl⟩
    · exact hnn e hm
    · exact ⟨add_nonneg (hnn _ hr2).1 (le_of_lt hq), (hnn _ hr2).2⟩
  | none =>
    simp only [add_item, hl]
    have hnotin : n ∉ keys M := lookup_eq_none_iff.mp hl
    refine ⟨?_, ?_⟩
    · have : keys (M ++ [(n, { quantity := q, price := p })]) = keys M ++ [n] := by
        simp [keys]
      rw [this, List.nodup_append_comm, List.singleton_append, List.nodup_cons]
      exact ⟨hnotin, hnd⟩
    · intro e he
      rcases List.mem_append.mp he with hm | hm
      · exact hnn e hm
      · rcases List.mem_singleton.mp hm with rfl
        exact ⟨le_of_lt hq, hp⟩

theorem wf_remove {n : String} {q : Int} {M : InvMap}
    (hwf : Wf M) : Wf (remove_item n q M).1 := by
  obtain ⟨hnd, hnn⟩ := hwf
  cases hl : lookup n M with
  | none =>
    have hM : (remove_item n q M).1 = M := by simp [remove_item, hl]
    rw [hM]; exact ⟨hnd, hnn⟩
  | some r =>
    by_cases hlt : r.quantity < q
    · have hM : (remove_item n q M).1 = M := by simp [remove_item, hl, hlt]
      rw [hM]; exact ⟨hnd, hnn⟩
    · have hupd : Wf (updateQty n (-q) M) := by
        refine ⟨by rw [keys_updateQty]; exact hnd, ?_⟩
        intro e he
        rcases mem_updateQty (-q) he with ⟨hm, _⟩ | ⟨r2, hr2, rfl⟩
        · exact hnn e hm
        · have hlk := lookup_of_mem_nodup hnd hr2
          rw [hl] at hlk
          have hr2r : r2 = r := (Option.some.inj hlk).symm
          refine ⟨?_, (hnn _ hr2).2⟩
          show 0 ≤ r2.quantity + -q
          rw [hr2r, ← Int.sub_eq_add_neg]
          exact sub_nonneg.mpr (not_lt.mp hlt)
      by_cases hz : r.quantity - q = 0
      · simp only [remove_item, hl, if_neg hlt, if_pos hz]
        exact wf_eraseKey hupd
      · simpa [remove_item, hl, hlt, hz] using hupd

/-! ### Claim theorems -/

/-- C1: for every inventory mapping `M`, item name `n`, quantity `q > 0`
and price `p ≥ 0`, after `add_item(n, q, p, M)` the result of
`get_qty(n, M)` equals the quantity stored for `n` before the call
(`0` if `n` was absent) plus `q`. -/
theorem add_item_get_qty (item_name : String) (quantity : Int) (price : Rat)
    (M : InvMap) (hq : 0 < quantity) (hp : 0 ≤ price) :
    get_qty item_name (add_item item_name quantity price M).1 =
      get_qty item_name M + quantity := by
  cases h : lookup item_name M with
  | none =>
    have hnew : lookup item_name
        (M ++ [(item_name, { quantity := quantity, price := price })]) =
          some { quantity := quantity, price := price } := by
      rw [lookup_append_of_none h]; simp [lookup]
    simp [add_item, h, get_qty, hnew]
  | some r =>
    simp [add_item, h, get_qty, lookup_updateQty_self]

/-- Witness for C1 at a concrete input. -/
theorem add_item_get_qty_witness :
    (0 : Int) < 10 ∧ (0 : Rat) ≤ 3 ∧
      get_qty "Widget" (add_item "Widget" 10 3 []).1 =
        get_qty "Widget" [] + 10 :=
  ⟨by decide, by decide,
    add_item_get_qty "Widget" 10 3 [] (by decide) (by decide)⟩

/-- C2: for every mapping `M` in which `n` already exists with record
`r`, `add_item(n, q, p, M)` stores `r.quantity + q` under `n` with the
price field still `r.price`, for every value of the price argument `p`
(the new price is never consulted on this branch). -/
theorem add_item_preserves_price (item_name : String) (quantity : Int)
    (price : Rat) (M : InvMap) (r : InventoryRecord)
    (h : lookup item_name M = some r) :
    lookup item_name (add_item item_name quantity price M).1 =
      some { quantity := r.quantity + quantity, price := r.price } := by
  simp [add_item, h, lookup_updateQty_self]

/-- Witness for C2 at a concrete input. -/
theorem add_item_preserves_price_witness :
    lookup "a" [("a", { quantity := 7, price := 3 })] =
        some { quantity := 7, price := 3 } ∧
      lookup "a" (add_item "a" 2 99 [("a", { quantity := 7, price := 3 })]).1 =
        some { quantity := 7 + 2, price := 3 } :=
  ⟨by decide,
    add_item_preserves_price "a" 2 99 [("a", { quantity := 7, price := 3 })]
      { quantity := 7, price := 3 } (by decide)⟩

/-- C3: for every mapping `M`, name `n` and quantity `q > 0`, if `n` is
absent from `M` or its stored quantity is strictly below `q`, then
`remove_item(n, q, M)` returns the mapping unchanged and emits exactly
one warning-level log event (and no error escapes: the embedded
function is total). -/
theorem remove_item_noop (item_name : String) (quantity : Int) (M : InvMap)
    (hq : 0 < quantity)
    (h : lookup item_name M = none ∨
      ∃ r, lookup item_name M = some r ∧ r.quantity < quantity) :
    (remove_item item_name quantity M).1 = M ∧
      ∃ ev, (remove_item item_name quantity M).2 = [ev] ∧
        ev.level = LogLevel.warning := by
  rcases h with h | ⟨r, h, hr⟩
  · refine ⟨by simp [remove_item, h], LogEvent.warnNotFound item_name, ?_, rfl⟩
    simp [remove_item, h]
  · refine ⟨by simp [remove_item, h, hr],
      LogEvent.warnInsufficient quantity item_name r.quantity, ?_, rfl⟩
    simp [remove_item, h, hr]

/-- Witness for C3 at a concrete input (absent key). -/
theorem remove_item_noop_witness :
    (0 : Int) < 4 ∧
      (lookup "ghost" [("a", { quantity := 1, price := 1 })] = none ∨
        ∃ r, lookup "ghost" [("a", { quantity := 1, price := 1 })] = some r ∧
          r.quantity < 4) ∧
      (remove_item "ghost" 4 [("a", { quantity := 1, price := 1 })]).1 =
          [("a", { quantity := 1, price := 1 })] ∧
        ∃ ev, (remove_item "ghost" 4 [("a", { quantity := 1, price := 1 })]).2 =
            [ev] ∧ ev.level = LogLevel.warning :=
  ⟨by decide, Or.inl (by decide),
    remove_item_noop "ghost" 4 [("a", { quantity := 1, price := 1 })]
      (by decide) (Or.inl (by decide))⟩

/-- C4: for every mapping `M` holding `n` with record `r` of quantity
`s > 0`, `remove_item(n, s, M)` deletes the record of `n` entirely, and
a subsequent `get_qty(n, _)` returns `0`. -/
theorem remove_item_all_stock (item_name : String) (M : InvMap)
    (r : InventoryRecord) (h : lookup item_name M = some r)
    (hpos : 0 < r.quantity) :
    lookup item_name (remove_item item_name r.quantity M).1 = none ∧
      get_qty item_name (remove_item item_name r.quantity M).1 = 0 := by
  have hlt : ¬ r.quantity < r.quantity := lt_irrefl _
  have hz : r.quantity - r.quantity = 0 := sub_self _
  simp [remove_item, h, hlt, hz, lookup_eraseKey_self, get_qty]

/-- Witness for C4 at a concrete input. -/
theorem remove_item_all_stock_witness :
    lookup "Gadget" [("Gadget", { quantity := 3, price := 1 })] =
        some { quantity := 3, price := 1 } ∧
      (0 : Int) < ({ quantity := 3, price := 1 } : InventoryRecord).quantity ∧
      lookup "Gadget"
          (remove_item "Gadget" 3 [("Gadget", { quantity := 3, price := 1 })]).1 =
        none ∧
      get_qty "Gadget"
          (remove_item "Gadget" 3 [("Gadget", { quantity := 3, price := 1 })]).1 =
        0 := by
  refine ⟨by decide, by decide, ?_⟩
  exact remove_item_all_stock "Gadget" [("Gadget", { quantity := 3, price := 1 })]
    { quantity := 3, price := 1 } (by decide) (by decide)

/-- C9: `check_low_items` keeps exactly the entries with quantity
strictly below `LOW_STOCK_THRESHOLD = 5`, and on
`{A: 3, B: 10, C: 5}` it keeps exactly `A` (the boundary value 5 is
excluded). -/
theorem check_low_items_spec :
    (∀ (M : InvMap) (e : String × InventoryRecord),
        e ∈ (check_low_items M).1 ↔
          e ∈ M ∧ e.2.quantity < LOW_STOCK_THRESHOLD) ∧
      (check_low_items
          [("A", { quantity := 3, price := 1 }),
           ("B", { quantity := 10, price := 1 }),
           ("C", { quantity := 5, price := 1 })]).1 =
        [("A", { quantity := 3, price := 1 })] := by
  constructor
  · intro M e
    simp [check_low_items, List.mem_filter]
  · decide

/-- C10: `add_item` and `remove_item` touch at most the entry of the
named key: every other key keeps its presence, quantity and price. -/
theorem ops_frame (n m : String) (q : Int) (p : Rat) (M : InvMap)
    (h : m ≠ n) :
    lookup m (add_item n q p M).1 = lookup m M ∧
      lookup m (remove_item n q M).1 = lookup m M := by
  constructor
  · cases hl : lookup n M with
    | some r => simp [add_item, hl, lookup_updateQty_ne _ _ h]
    | none => simp [add_item, hl, lookup_append_single_ne _ _ h]
  · cases hl : lookup n M with
    | none => simp [remove_item, hl]
    | some r =>
      by_cases hlt : r.quantity < q
      · simp [remove_item, hl, hlt]
      · by_cases hz : r.quantity - q = 0
        · simp [remove_item, hl, hlt, hz, lookup_eraseKey_ne _ h,
            lookup_updateQty_ne _ _ h]
        · simp [remove_item, hl, hlt, hz, lookup_updateQty_ne _ _ h]

/-- Witness for C10 at a concrete input. -/
theorem ops_frame_witness :
    "b" ≠ "a" ∧
      lookup "b" (add_item "a" 2 1 [("b", { quantity := 4, price := 2 })]).1 =
        lookup "b" [("b", { quantity := 4, price := 2 })] ∧
      lookup "b" (remove_item "a" 2 [("b", { quantity := 4, price := 2 })]).1 =
        lookup "b" [("b", { quantity := 4, price := 2 })] :=
  ⟨by decide,
    ops_frame "a" "b" 2 1 [("b", { quantity := 4, price := 2 })] (by decide)⟩

/-- C5 counterexample: the claim as stated quantifies over arbitrary
argument sequences, but `add_item` accepts negative arguments silently:
one `add_item("x", -1, -1, …)` from the empty inventory leaves a record
with negative quantity and negative price. -/
theorem runOps_negative_cex :
    ∃ e ∈ runOps [Op.add "x" (-1) (-1)],
      e.2.quantity < 0 ∧ e.2.price < 0 := by
  refine ⟨("x", { quantity := -1, price := -1 }), ?_, by decide, by decide⟩
  decide

/-- C5 (amended): in every mapping reachable from the empty inventory by
a sequence of `add_item` and `remove_item` calls whose additions carry a
positive quantity and a non-negative price (the constraints §4.1 puts on
callers; removals are unconstrained), every record's quantity and price
are non-negative. -/
theorem runOps_nonneg (ops : List Op) (hv : ∀ op ∈ ops, op.valid) :
    ∀ e ∈ runOps ops, 0 ≤ e.2.quantity ∧ 0 ≤ e.2.price := by
  have aux : ∀ (l : List Op) (M : InvMap), Wf M → (∀ op ∈ l, op.valid) →
      Wf (l.foldl applyOp M) := by
    intro l
    induction l with
    | nil => intro M hM _; simpa using hM
    | cons op rest ih =>
      intro M hM hvl
      rw [List.foldl_cons]
      refine ih _ ?_ (fun o ho => hvl o (List.mem_cons_of_mem _ ho))
      cases op with
      | add n q p =>
        have hval := hvl (Op.add n q p) (List.mem_cons_self _ _)
        simp only [Op.valid] at hval
        exact wf_add hM hval.1 hval.2
      | remove n q => exact wf_remove hM
  exact (aux ops [] ⟨by simp [keys], by simp⟩ hv).2

/-- Witness for the amended C5 at a concrete operation sequence. -/
theorem runOps_nonneg_witness :
    (∀ op ∈ [Op.add "a" 2 1, Op.remove "a" 1], op.valid) ∧
      ∀ e ∈ runOps [Op.add "a" 2 1, Op.remove "a" 1],
        0 ≤ e.2.quantity ∧ 0 ≤ e.2.price :=
  ⟨by
    intro op ho
    fin_cases ho
    · exact ⟨by decide, by decide⟩
    · trivial,
    runOps_nonneg [Op.add "a" 2 1, Op.remove "a" 1]
      (by
        intro op ho
        fin_cases ho
        · exact ⟨by decide, by decide⟩
        · trivial)⟩

/-- C6 counterexample: on the mapping `{x: quantity 0}` the call
`remove_item("x", 1, M)` hits the insufficient-stock branch and returns
the mapping unchanged, so a record with quantity 0 persists after the
call completes. -/
theorem remove_item_zero_persists_cex :
    ∃ e ∈ (remove_item "x" 1 [("x", { quantity := 0, price := 0 })]).1,
      e.2.quantity = 0 := by
  refine ⟨("x", { quantity := 0, price := 0 }), ?_, rfl⟩
  decide

/-- C6 (amended): for every mapping with unique keys (as Python dicts
guarantee) in which no record has quantity 0, after any
`remove_item(n, q, M)` no record has quantity 0: a record whose quantity
reaches 0 through the decrement is deleted, not kept at zero, and the
others keep their non-zero quantities. -/
theorem remove_item_no_zero_quantity (item_name : String) (quantity : Int)
    (M : InvMap) (hnd : (keys M).Nodup)
    (hz : ∀ e ∈ M, e.2.quantity ≠ 0) :
    ∀ e ∈ (remove_item item_name quantity M).1, e.2.quantity ≠ 0 := by
  intro e he
  cases hl : lookup item_name M with
  | none =>
    rw [show (remove_item item_name quantity M).1 = M from
      by simp [remove_item, hl]] at he
    exact hz e he
  | some r =>
    by_cases hlt : r.quantity < quantity
    · rw [show (remove_item item_name quantity M).1 = M from
        by simp [remove_item, hl, hlt]] at he
      exact hz e he
    · by_cases hzero : r.quantity - quantity = 0
      · rw [show (remove_item item_name quantity M).1 =
            eraseKey item_name (updateQty item_name (-quantity) M) from
          by simp [remove_item, hl, hlt, hzero]] at he
        have hne := mem_eraseKey_key_ne he
        have hmem := (eraseKey_sublist _ _).subset he
        rcases mem_updateQty (-quantity) hmem with ⟨hm, _⟩ | ⟨r2, _, rfl⟩
        · exact hz e hm
        · exact absurd rfl hne
      · rw [show (remove_item item_name quantity M).1 =
            updateQty item_name (-quantity) M from
          by simp [remove_item, hl, hlt, hzero]] at he
        rcases mem_updateQty (-quantity) he with ⟨hm, _⟩ | ⟨r2, hr2, rfl⟩
        · exact hz e hm
        · have hlk := lookup_of_mem_nodup hnd hr2
          rw [hl] at hlk
          have hr2r : r2 = r := (Option.some.inj hlk).symm
          show r2.quantity + -quantity ≠ 0
          rw [hr2r, ← Int.sub_eq_add_neg]
          exact hzero

/-- Witness for the amended C6 at a concrete input. -/
theorem remove_item_no_zero_quantity_witness :
    (keys [("a", { quantity := 5, price := 1 })]).Nodup ∧
      (∀ e ∈ ([("a", { quantity := 5, price := 1 })] : InvMap),
        e.2.quantity ≠ 0) ∧
      ∀ e ∈ (remove_item "a" 2 [("a", { quantity := 5, price := 1 })]).1,
        e.2.quantity ≠ 0 :=
  ⟨by decide, by decide,
    remove_item_no_zero_quantity "a" 2 [("a", { quantity := 5, price := 1 })]
      (by decide) (by decide)⟩

theorem fromJson_toJson (M : InvMap) : fromJson (toJson M) = some M := by
  induction M with
  | nil => rfl
  | cons e rest ih =>
    simp only [toJson, fromJson, List.map_cons, decodeFields] at ih ⊢
    rw [show decodeField (e.1, Json.jobj
        [("quantity", Json.jint e.2.quantity),
         ("price", Json.jnum e.2.price)]) = some (e.1, e.2) from rfl]
    rw [ih]

/-- C7: for every well-formed mapping `M` (unique keys, non-negative
integer quantities, non-negative prices) and every prior file state,
`save_data(M)` followed by `load_data()` succeeds, hands back exactly
the object written for `M`, and that object reads back as a mapping
equal to `M`. -/
theorem save_load_roundtrip (M : InvMap) (fs : FileState) (h : Wf M) :
    load_data (save_data M fs).1 =
        Except.ok (toJson M, ([] : List LogEvent)) ∧
      fromJson (toJson M) = some M :=
  ⟨rfl, fromJson_toJson M⟩

/-- Witness for C7 at a concrete input. -/
theorem save_load_roundtrip_witness :
    Wf [("a", { quantity := 2, price := 7 })] ∧
      (load_data
          (save_data [("a", { quantity := 2, price := 7 })] FileState.missing).1 =
            Except.ok (toJson [("a", { quantity := 2, price := 7 })],
              ([] : List LogEvent)) ∧
        fromJson (toJson [("a", { quantity := 2, price := 7 })]) =
          some [("a", { quantity := 2, price := 7 })]) :=
  ⟨by decide,
    save_load_roundtrip [("a", { quantity := 2, price := 7 })]
      FileState.missing (by decide)⟩

/-- C8 counterexample: when the file exists but cannot be opened, the
`PermissionError` raised by `open` is caught by neither
`json.JSONDecodeError` nor `FileNotFoundError`, so `load_data`
propagates it to its caller. -/
theorem load_data_unopenable_raises :
    load_data FileState.unopenable = Except.error PyError.permissionError :=
  rfl

/-- C8 (amended): except when the file exists but cannot be opened (a
`PermissionError` then propagates), `load_data` raises nothing: a
missing file yields a warning event and the empty mapping, and a file
with unparseable content yields an error event and the empty mapping. -/
theorem load_data_no_raise (fs : FileState)
    (h : fs ≠ FileState.unopenable) :
    ∃ res, load_data fs = Except.ok res ∧
      (fs = FileState.missing →
        res = (Json.jobj [], [LogEvent.warnNoDataFile]) ∧
          LogEvent.warnNoDataFile.level = LogLevel.warning) ∧
      (fs = FileState.file none →
        res = (Json.jobj [], [LogEvent.errLoadFailed]) ∧
          LogEvent.errLoadFailed.level = LogLevel.error) := by
  cases fs with
  | missing =>
    refine ⟨(Json.jobj [], [LogEvent.warnNoDataFile]), rfl, ?_, ?_⟩
    · intro _; exact ⟨rfl, rfl⟩
    · intro hc; exact absurd hc (by simp)
  | unopenable => exact absurd rfl h
  | file o =>
    cases o with
    | none =>
      refine ⟨(Json.jobj [], [LogEvent.errLoadFailed]), rfl, ?_, ?_⟩
      · intro hc; exact absurd hc (by simp)
      · intro _; exact ⟨rfl, rfl⟩
    | some j =>
      refine ⟨(j, []), rfl, ?_, ?_⟩
      · intro hc; exact absurd hc (by simp)
      · intro hc; exact absurd hc (by simp)

/-- Witness for the amended C8 at the missing-file state. -/
theorem load_data_no_raise_witness :
    FileState.missing ≠ FileState.unopenable ∧
      ∃ res, load_data FileState.missing = Except.ok res ∧
        (FileState.missing = FileState.missing →
          res = (Json.jobj [], [LogEvent.warnNoDataFile]) ∧
            LogEvent.warnNoDataFile.level = LogLevel.warning) ∧
        (FileState.missing = FileState.file none →
          res = (Json.jobj [], [LogEvent.errLoadFailed]) ∧
            LogEvent.errLoadFailed.level = LogLevel.error) :=
  And.intro (by simp)
    (load_data_no_raise FileState.missing (by simp))

end Inventory
